/- Verification of the pitch-engine core (pitch_engine.py).

   The development shallowly embeds the data model and the pure logic of the
   four entry points (get_default_pitch_data, get_completion_stats, ingest,
   evaluate).  Python strings are modelled as List Char, Python dict values
   decoded from JSON as an inductive Json type, and the fallible parts return
   Except PyErr.  A small explicit heap models the two properties that are
   about object identity and in-place mutation (deep copies, independent
   instances). -/
import Mathlib

set_option maxHeartbeats 1000000
set_option maxRecDepth 8000

/-- Convert a Lean string literal to the character-list representation used
for Python strings throughout this development. -/
def pystr (s : String) : List Char := s.toList

/-- Left brace character (written via its code point). -/
def lbrace : Char := Char.ofNat 123

/-- Right brace character (written via its code point). -/
def rbrace : Char := Char.ofNat 125

/-- Whitespace characters removed by Python str.strip() (ASCII range). -/
def pyWS (c : Char) : Bool :=
  c = ' ' || c = '\t' || c = '\n' || c = '\r' || c = Char.ofNat 11 || c = Char.ofNat 12

/-- Python str.strip(): remove leading and trailing whitespace. -/
def stripWS (s : List Char) : List Char :=
  ((s.dropWhile pyWS).reverse.dropWhile pyWS).reverse

/-- Index of the first occurrence of needle in hay (Python str.find), if any. -/
def findSub (needle : List Char) : List Char → Option Nat
  | [] => if needle.isPrefixOf [] then some 0 else none
  | c :: t =>
    if needle.isPrefixOf (c :: t) then some 0
    else (findSub needle t).map (· + 1)

/-- Python substring membership test (the in operator on str). -/
def containsSub (needle hay : List Char) : Bool := (findSub needle hay).isSome

/-- Text before the first occurrence of sep (the whole string if absent). -/
def prefixBeforeFirst (sep s : List Char) : List Char :=
  match findSub sep s with
  | some i => s.take i
  | none => s

/-- Python str.split(sep) scanning loop; each found occurrence consumes at
least one character for a non-empty separator, so fuel of the input length
plus one always suffices (structural fuel keeps the function computable by
the kernel). -/
def splitAllGo (sep : List Char) : Nat → List Char → List (List Char)
  | 0, s => [s]
  | Nat.succ f, s =>
    match findSub sep s with
    | none => [s]
    | some i => s.take i :: splitAllGo sep f (s.drop (i + sep.length))

/-- Python str.split(sep) for a non-empty separator: non-overlapping
left-to-right splitting. -/
def splitAll (sep s : List Char) : List (List Char) :=
  if sep = [] then [s] else splitAllGo sep (s.length + 1) s

/-- Python list indexing [0] on the (always non-empty) result of split. -/
def pyIdx0 (l : List (List Char)) : List Char := l.headD []

/-- Python str.replace scanning loop, with structural fuel as above. -/
def replaceAllGo (old new : List Char) : Nat → List Char → List Char
  | 0, s => s
  | Nat.succ f, s =>
    match s with
    | [] => []
    | c :: t =>
      if old.isPrefixOf (c :: t) then new ++ replaceAllGo old new f ((c :: t).drop old.length)
      else c :: replaceAllGo old new f t

/-- Python str.replace(old, new): non-overlapping left-to-right replacement
(the degenerate empty pattern, which Python treats specially, is unused). -/
def replaceAll (old new s : List Char) : List Char :=
  if old = [] then s else replaceAllGo old new (s.length + 1) s

/-- Decoded JSON values as produced by Python json.loads.  Integer literals
decode to num; literals with a fraction or exponent decode to flt m e
(value m times ten to the e, kept exact rather than as floating point); the
Python extensions NaN, Infinity and -Infinity are kept as their own
constructors.  Objects are association lists with dict semantics (first
insertion fixes the position, a duplicate key overwrites the value). -/
inductive Json where
  | null : Json
  | bool (b : Bool) : Json
  | num (n : Int) : Json
  | flt (m : Int) (e : Int) : Json
  | nan : Json
  | inf (neg : Bool) : Json
  | str (s : List Char) : Json
  | arr (elems : List Json) : Json
  | obj (fields : List (List Char × Json)) : Json

/-- Whitespace skipped by the Python JSON scanner (space, tab, newline, cr). -/
def jsonWS (c : Char) : Bool := c = ' ' || c = '\t' || c = '\n' || c = '\r'

/-- Skip JSON whitespace. -/
def skipW (s : List Char) : List Char := s.dropWhile jsonWS

/-- Python dict insertion: overwrite the value of an existing key in place,
append a fresh key at the end. -/
def objInsert (fs : List (List Char × Json)) (k : List Char) (v : Json) :
    List (List Char × Json) :=
  match fs with
  | [] => [(k, v)]
  | (k0, v0) :: rest =>
    if k0 = k then (k0, v) :: rest else (k0, v0) :: objInsert rest k v

/-- Python dict.get on a decoded JSON object. -/
def objGet (fs : List (List Char × Json)) (k : List Char) : Option Json :=
  match fs with
  | [] => none
  | (k0, v0) :: rest => if k0 = k then some v0 else objGet rest k

/-- Value of a hexadecimal digit, if the character is one. -/
def hexD (c : Char) : Option Nat :=
  if '0' ≤ c ∧ c ≤ '9' then some (c.toNat - 48)
  else if 'a' ≤ c ∧ c ≤ 'f' then some (c.toNat - 87)
  else if 'A' ≤ c ∧ c ≤ 'F' then some (c.toNat - 70)
  else none

/-- Body of a JSON string literal after the opening quote: returns the decoded
characters and the input after the closing quote.  Strict mode: raw control
characters are rejected; the supported escapes are those of the JSON grammar.
A \u escape is decoded as a single code point (surrogate pairs are not
recombined; this corner is unused by the claims). -/
def parseStringBodyGo : Nat → List Char → Option (List Char × List Char)
  | 0, _ => none
  | Nat.succ fu, s =>
    match s with
    | [] => none
    | c :: rest =>
      if c = '"' then some ([], rest)
      else if c = '\\' then
        match rest with
        | [] => none
        | e :: r2 =>
          if e = '"' then (parseStringBodyGo fu r2).map (fun p => ('"' :: p.1, p.2))
          else if e = '\\' then (parseStringBodyGo fu r2).map (fun p => ('\\' :: p.1, p.2))
          else if e = '/' then (parseStringBodyGo fu r2).map (fun p => ('/' :: p.1, p.2))
          else if e = 'b' then (parseStringBodyGo fu r2).map (fun p => (Char.ofNat 8 :: p.1, p.2))
          else if e = 'f' then (parseStringBodyGo fu r2).map (fun p => (Char.ofNat 12 :: p.1, p.2))
          else if e = 'n' then (parseStringBodyGo fu r2).map (fun p => ('\n' :: p.1, p.2))
          else if e = 'r' then (parseStringBodyGo fu r2).map (fun p => ('\r' :: p.1, p.2))
          else if e = 't' then (parseStringBodyGo fu r2).map (fun p => ('\t' :: p.1, p.2))
          else if e = 'u' then
            match r2 with
            | h1 :: h2 :: h3 :: h4 :: r3 =>
              match hexD h1, hexD h2, hexD h3, hexD h4 with
              | some a, some b, some c2, some d =>
                (parseStringBodyGo fu r3).map
                  (fun p => (Char.ofNat (((a * 16 + b) * 16 + c2) * 16 + d) :: p.1, p.2))
              | _, _, _, _ => none
            | _ => none
          else none
      else if c.toNat < 32 then none
      else (parseStringBodyGo fu rest).map (fun p => (c :: p.1, p.2))

/-- Body of a JSON string literal after the opening quote, with ample fuel
(every recursive step consumes at least one character). -/
def parseStringBody (s : List Char) : Option (List Char × List Char) :=
  parseStringBodyGo (s.length + 1) s

/-- Run of decimal digits and the remainder. -/
def spanDigits (s : List Char) : List Char × List Char :=
  (s.takeWhile Char.isDigit, s.dropWhile Char.isDigit)

/-- Numeric value of a digit run. -/
def natOfDigits (ds : List Char) : Nat :=
  ds.foldl (fun a c => a * 10 + (c.toNat - 48)) 0

/-- A JSON number per the grammar used by Python json
(-?(0|[1-9][0-9]*)(\.[0-9]+)?([eE][+-]?[0-9]+)?), with maximal munch of each
group; fails when the input does not start with a number. -/
def parseNum (s : List Char) : Option (Json × List Char) :=
  let signed := match s with
    | '-' :: t => (true, t)
    | _ => (false, s)
  match signed.2 with
  | [] => none
  | c :: _ =>
    if c.isDigit then
      let ipRest : List Char × List Char :=
        match signed.2 with
        | '0' :: t => (['0'], t)
        | other => spanDigits other
      let fracRest : Option (List Char) × List Char :=
        match ipRest.2 with
        | '.' :: t =>
          let p := spanDigits t
          if p.1 = [] then (none, ipRest.2) else (some p.1, p.2)
        | other => (none, other)
      let expRest : Option Int × List Char :=
        match fracRest.2 with
        | e :: t =>
          if e = 'e' ∨ e = 'E' then
            let signedE : Bool × List Char := match t with
              | '+' :: t2 => (false, t2)
              | '-' :: t2 => (true, t2)
              | _ => (false, t)
            let p := spanDigits signedE.2
            if p.1 = [] then (none, fracRest.2)
            else (some (if signedE.1 then -(natOfDigits p.1 : Int) else (natOfDigits p.1 : Int)), p.2)
          else (none, fracRest.2)
        | [] => (none, [])
      let sign : Int := if signed.1 then -1 else 1
      match fracRest.1, expRest.1 with
      | none, none => some (Json.num (sign * natOfDigits ipRest.1), fracRest.2)
      | fr, ex =>
        let frDigits := match fr with | none => [] | some ds => ds
        let mant : Int := sign * natOfDigits (ipRest.1 ++ frDigits)
        let expv : Int := (match ex with | none => 0 | some v => v) - frDigits.length
        some (Json.flt mant expv, expRest.2)
    else none

mutual

/-- One JSON value starting at the given input (no leading whitespace),
returning the value and the rest of the input.  Fuel bounds the recursion
depth; json_loads supplies ample fuel. -/
def parseVal (fuel : Nat) (s : List Char) : Option (Json × List Char) :=
  match fuel with
  | 0 => none
  | Nat.succ f =>
    match s with
    | [] => none
    | c :: rest =>
      if c = '"' then (parseStringBody rest).map (fun p => (Json.str p.1, p.2))
      else if c = lbrace then
        match skipW rest with
        | [] => none
        | c1 :: r1 => if c1 = rbrace then some (Json.obj [], r1) else parseObjItems f [] (c1 :: r1)
      else if c = '[' then
        match skipW rest with
        | [] => none
        | c1 :: r1 => if c1 = ']' then some (Json.arr [], r1) else parseArrItems f [] (c1 :: r1)
      else
        match s with
        | 't' :: 'r' :: 'u' :: 'e' :: r => some (Json.bool true, r)
        | 'f' :: 'a' :: 'l' :: 's' :: 'e' :: r => some (Json.bool false, r)
        | 'n' :: 'u' :: 'l' :: 'l' :: r => some (Json.null, r)
        | 'N' :: 'a' :: 'N' :: r => some (Json.nan, r)
        | 'I' :: 'n' :: 'f' :: 'i' :: 'n' :: 'i' :: 't' :: 'y' :: r => some (Json.inf false, r)
        | '-' :: 'I' :: 'n' :: 'f' :: 'i' :: 'n' :: 'i' :: 't' :: 'y' :: r => some (Json.inf true, r)
        | _ => parseNum s

/-- Members of a JSON object, positioned at the start of a key. -/
def parseObjItems (fuel : Nat) (acc : List (List Char × Json)) (s : List Char) :
    Option (Json × List Char) :=
  match fuel with
  | 0 => none
  | Nat.succ f =>
    match s with
    | [] => none
    | c :: r =>
      if c = '"' then
        match parseStringBody r with
        | none => none
        | some (k, r1) =>
          match skipW r1 with
          | ':' :: r2 =>
            match parseVal f (skipW r2) with
            | none => none
            | some (v, r3) =>
              match skipW r3 with
              | ',' :: r4 => parseObjItems f (objInsert acc k v) (skipW r4)
              | c2 :: r4 =>
                if c2 = rbrace then some (Json.obj (objInsert acc k v), r4) else none
              | [] => none
          | _ => none
      else none

/-- Elements of a JSON array, positioned at the start of a value. -/
def parseArrItems (fuel : Nat) (acc : List Json) (s : List Char) :
    Option (Json × List Char) :=
  match fuel with
  | 0 => none
  | Nat.succ f =>
    match parseVal f s with
    | none => none
    | some (v, r) =>
      match skipW r with
      | ',' :: r2 => parseArrItems f (acc ++ [v]) (skipW r2)
      | ']' :: r2 => some (Json.arr (acc ++ [v]), r2)
      | _ => none

end

/-- Python json.loads: parse one JSON document, requiring the whole input to
be consumed up to trailing whitespace; none models json.JSONDecodeError. -/
def json_loads (s : List Char) : Option Json :=
  match parseVal (4 * s.length + 16) (skipW s) with
  | none => none
  | some (v, rest) => if skipW rest = [] then some v else none

/-- Python exceptions that the embedded code can raise (uncaught). -/
inductive PyErr where
  | attributeError : PyErr
  | typeError : PyErr
  | keyError : PyErr
  | jsonDecodeError : PyErr
deriving Repr, DecidableEq

/-- One field entry of the pitch record: the two inner-dict slots.  The
slots hold whatever decoded JSON values the update directives supply, as in
the source, which stores them without type validation. -/
structure FieldEntry where
  value : Json
  state : Json

/-- A pitch record: Python dict from field keys to field entries, modelled
as an association list in insertion order with unique keys. -/
abbrev PitchData := List (List Char × FieldEntry)

/-- Keys of a pitch record, in order. -/
def pdKeys (pd : PitchData) : List (List Char) := pd.map Prod.fst

/-- Dict lookup on a pitch record. -/
def pdLookup (pd : PitchData) (k : List Char) : Option FieldEntry :=
  match pd with
  | [] => none
  | (k0, e) :: rest => if k0 = k then some e else pdLookup rest k

/-- Python updated_pitch_data[field_key]["value"] = v. -/
def pdSetValue (pd : PitchData) (k : List Char) (v : Json) : PitchData :=
  match pd with
  | [] => []
  | (k0, e) :: rest =>
    if k0 = k then (k0, { e with value := v }) :: rest
    else (k0, e) :: pdSetValue rest k v

/-- Python updated_pitch_data[field_key]["state"] = s. -/
def pdSetState (pd : PitchData) (k : List Char) (s : Json) : PitchData :=
  match pd with
  | [] => []
  | (k0, e) :: rest =>
    if k0 = k then (k0, { e with state := s }) :: rest
    else (k0, e) :: pdSetState rest k s

/-- Python comparison of a field state slot with a string literal
(field["state"] == "complete" and the like): true only when the slot holds
exactly that string. -/
def stateEq (j : Json) (s : String) : Bool :=
  match j with
  | .str cs => cs = s.toList
  | _ => false

/-- True for the three canonical state strings (unknown, partial, complete);
anything else, string or not, is non-canonical. -/
def isCanonicalState (j : Json) : Bool :=
  stateEq j "unknown" || stateEq j "partial" || stateEq j "complete"

/-- Returns the default pitch data structure (source: get_default_pitch_data);
in the pure value model the fresh-instance aspect is trivial, and it is
treated separately in the heap model below. -/
def get_default_pitch_data : PitchData :=
  [ (pystr "problem_definition", { value := Json.str [], state := Json.str (pystr "unknown") })
  , (pystr "solution_description", { value := Json.str [], state := Json.str (pystr "unknown") })
  , (pystr "icp", { value := Json.str [], state := Json.str (pystr "unknown") }) ]

/-- Completion statistics (source: get_completion_stats).  The Python dict
keys partial and unknown are rendered as partialCount and unknownCount. -/
structure CompletionStats where
  total : Nat
  complete : Nat
  partialCount : Nat
  unknownCount : Nat
  percentage : ℚ
deriving Repr, DecidableEq

/-- Calculate completion statistics (source: get_completion_stats). -/
def get_completion_stats (pd : PitchData) : CompletionStats :=
  let total := pd.length
  let complete := pd.countP (fun p => stateEq p.2.state "complete")
  { total := total
  , complete := complete
  , partialCount := pd.countP (fun p => stateEq p.2.state "partial")
  , unknownCount := pd.countP (fun p => stateEq p.2.state "unknown")
  , percentage := if total > 0 then (complete : ℚ) / (total : ℚ) * 100 else 0 }

/-- The update-directive delimiter. -/
def UPDATE_DELIM : List Char := pystr "---UPDATE---"

/-- The end delimiter of an update-directive block. -/
def END_DELIM : List Char := pystr "---END---"

/-- The readiness marker token. -/
def READY_MARKER : List Char := pystr "---READY_FOR_EVALUATION---"

/-- The JSON texts of the well-delimited directive blocks of a model
response: for every part after an occurrence of the update delimiter that
contains the end delimiter, the stripped text before the first end delimiter
(source lines 122-125). -/
def extractBlocks (msg : List Char) : List (List Char) :=
  ((splitAll UPDATE_DELIM msg).tail).filterMap (fun part =>
    if containsSub END_DELIM part then
      some (stripWS (pyIdx0 (splitAll END_DELIM part)))
    else none)

/-- Python field_key in updated_pitch_data, where field_key is
update.get("field_key"): a missing key gives None (not a dict key); string
keys are membership-tested, other hashable values are simply not keys, and
unhashable values (decoded lists and objects) raise TypeError. -/
def pyKeyContains (pd : PitchData) (fk : Option Json) : Except PyErr Bool :=
  match fk with
  | none => .ok false
  | some (Json.str k) => .ok (decide (k ∈ pdKeys pd))
  | some (Json.arr _) => .error .typeError
  | some (Json.obj _) => .error .typeError
  | some _ => .ok false

/-- Process one extracted directive text against the (copied) record: a JSON
decode failure is caught and skipped; a decoded non-dict raises
AttributeError at update.get; a decoded dict updates the matching field with
defaults "" and "partial" for missing payload keys (source lines 126-133). -/
def applyBlock (js : List Char) (pd : PitchData) : Except PyErr PitchData :=
  match json_loads js with
  | none => .ok pd
  | some u =>
    match u with
    | Json.obj fs =>
      let fk := objGet fs (pystr "field_key")
      match pyKeyContains pd fk with
      | .error e => .error e
      | .ok true =>
        match fk with
        | some (Json.str k) =>
          let v := (objGet fs (pystr "value")).getD (Json.str [])
          let st := (objGet fs (pystr "state")).getD (Json.str (pystr "partial"))
          .ok (pdSetState (pdSetValue pd k v) k st)
        | _ => .ok pd
      | .ok false => .ok pd
    | _ => .error .attributeError

/-- Sequentially process the extracted directive texts (the for loop of
source lines 123-133); an uncaught exception aborts the loop. -/
def processBlocks (blocks : List (List Char)) (pd : PitchData) : Except PyErr PitchData :=
  match blocks with
  | [] => .ok pd
  | b :: rest =>
    match applyBlock b pd with
    | .error e => .error e
    | .ok pd1 => processBlocks rest pd1

/-- Clean the message for display (source lines 139-143): take the text
before the first update delimiter when one is present, stripped, then remove
all readiness-marker occurrences when one is present, stripped again. -/
def displayPure (msg : List Char) : List Char :=
  let d1 := if containsSub UPDATE_DELIM msg then stripWS (pyIdx0 (splitAll UPDATE_DELIM msg)) else msg
  if containsSub READY_MARKER d1 then stripWS (replaceAll READY_MARKER [] d1) else d1

/-- Result triple of ingest (source lines 145-149). -/
structure IngestResult where
  pitch_data : PitchData
  response : List Char
  ready_for_evaluation : Bool

/-- Processing that ingest applies to the model response (source lines
114-149): the model call itself is the external capability, so the response
text ai_message is the input here.  The deep copy of the input record is the
identity in this pure value model (the heap model below covers mutation);
updates are applied block by block, the readiness marker is detected on the
raw response, and the display message is cleaned. -/
def ingest (ai_message : List Char) (pitch_data : PitchData) : Except PyErr IngestResult :=
  let step : Except PyErr PitchData :=
    if containsSub UPDATE_DELIM ai_message then
      processBlocks (extractBlocks ai_message) pitch_data
    else .ok pitch_data
  match step with
  | .error e => .error e
  | .ok updated =>
    .ok { pitch_data := updated
        , response := displayPure ai_message
        , ready_for_evaluation := containsSub READY_MARKER ai_message }

/-- Field key of a decoded directive in the sense of the spec: present only
when the directive decoded to an object whose field_key entry is a string. -/
def specFieldKey (u : Json) : Option (List Char) :=
  match u with
  | Json.obj fs =>
    match objGet fs (pystr "field_key") with
    | some (Json.str k) => some k
    | _ => none
  | _ => none

/-- Overwrite of one field by a decoded directive in the sense of the spec:
set the value and state slots from the directive payload (empty string and
partial when absent). -/
def specOverwrite (pd : PitchData) (k : List Char) (u : Json) : PitchData :=
  match u with
  | Json.obj fs =>
    pdSetState (pdSetValue pd k ((objGet fs (pystr "value")).getD (Json.str [])))
      k ((objGet fs (pystr "state")).getD (Json.str (pystr "partial")))
  | _ => pd

/-- One directive as worded by the spec: attempt to decode; malformed JSON is
skipped; a successfully decoded directive whose field_key matches a known
field overwrites that field; any other directive is ignored. -/
def specStep (d : PitchData) (b : List Char) : PitchData :=
  match json_loads b with
  | none => d
  | some u =>
    match specFieldKey u with
    | some k => if k ∈ pdKeys d then specOverwrite d k u else d
    | none => d

/-- Directive application as worded by the spec (section 4.4 step 6), over
the extracted blocks in order.  This is the spec-level reference against
which the code-level loop is compared. -/
def specApplyDirectives (blocks : List (List Char)) (pd : PitchData) : PitchData :=
  blocks.foldl specStep pd

/-- A directive text whose processing cannot raise: it is malformed JSON, or
decodes to an object whose field_key entry (if any) is hashable and therefore
at worst ignored.  Directives outside this set abort ingest (see the C1
counterexample and C9). -/
def blockSafe (b : List Char) : Bool :=
  match json_loads b with
  | none => true
  | some (Json.obj fs) =>
    match objGet fs (pystr "field_key") with
    | some (Json.arr _) => false
    | some (Json.obj _) => false
    | _ => true
  | some _ => false

/-- Display message as worded by the spec (amended): text preceding the
first update-delimiter occurrence (whole response when absent), trimmed when
the delimiter was present, then with readiness-marker occurrences removed in
one pass and trimmed again when a marker is present. -/
def displaySpec (msg : List Char) : List Char :=
  let d1 := if containsSub UPDATE_DELIM msg then stripWS (prefixBeforeFirst UPDATE_DELIM msg) else msg
  if containsSub READY_MARKER d1 then stripWS (replaceAll READY_MARKER [] d1) else d1

/-- Heap of mutable inner dicts (the field entries); an address is an index
into the allocation list. -/
abbrev Heap := List FieldEntry

/-- A pitch record in the heap model: the outer dict maps each field key to
the address of its mutable inner dict. -/
abbrev PitchRef := List (List Char × Nat)

/-- Read a heap cell. -/
def heapGet (h : Heap) (a : Nat) : Option FieldEntry :=
  match h, a with
  | [], _ => none
  | e :: _, 0 => some e
  | _ :: t, Nat.succ a2 => heapGet t a2

/-- Overwrite a heap cell (no-op on a dangling address). -/
def heapSet (h : Heap) (a : Nat) (e : FieldEntry) : Heap :=
  match h, a with
  | [], _ => []
  | _ :: t, 0 => e :: t
  | x :: t, Nat.succ a2 => x :: heapSet t a2 e

/-- Address of a field key in a record reference (dict lookup). -/
def refLookup (r : PitchRef) (k : List Char) : Option Nat :=
  match r with
  | [] => none
  | (k0, a) :: rest => if k0 = k then some a else refLookup rest k

/-- Keys of a record reference. -/
def refKeys (r : PitchRef) : List (List Char) := r.map Prod.fst

/-- The default entry allocated by get_default_pitch_data. -/
def defaultEntry : FieldEntry :=
  { value := Json.str [], state := Json.str (pystr "unknown") }

/-- Heap-model get_default_pitch_data: builds a fresh dict of three fresh
inner dicts, each in unknown state with empty value (source lines 22-28). -/
def get_default_pitch_data_heap (h : Heap) : Heap × PitchRef :=
  (h ++ [defaultEntry, defaultEntry, defaultEntry],
   [ (pystr "problem_definition", h.length)
   , (pystr "solution_description", h.length + 1)
   , (pystr "icp", h.length + 2) ])

/-- copy.deepcopy of a pitch record: allocate a fresh inner dict per field
with the same contents, leaving existing cells untouched (source line 117). -/
def deepcopyHeap (h : Heap) (r : PitchRef) : Heap × PitchRef :=
  match r with
  | [] => (h, [])
  | (k, a) :: rest =>
    let e := (heapGet h a).getD defaultEntry
    let res := deepcopyHeap (h ++ [e]) rest
    (res.1, (k, h.length) :: res.2)

/-- Python field_key in updated_pitch_data in the heap model (same hashing
behaviour as pyKeyContains, against the reference keys). -/
def pyKeyContainsRef (r : PitchRef) (fk : Option Json) : Except PyErr Bool :=
  match fk with
  | none => .ok false
  | some (Json.str k) => .ok (decide (k ∈ refKeys r))
  | some (Json.arr _) => .error .typeError
  | some (Json.obj _) => .error .typeError
  | some _ => .ok false

/-- Heap-model processing of one directive text: as applyBlock, with the two
updates performed as in-place mutations of the addressed inner dict (source
lines 126-133).  On an uncaught exception the heap mutated so far survives. -/
def applyBlockHeap (js : List Char) (h : Heap) (r : PitchRef) : Heap × Option PyErr :=
  match json_loads js with
  | none => (h, none)
  | some u =>
    match u with
    | Json.obj fs =>
      let fk := objGet fs (pystr "field_key")
      match pyKeyContainsRef r fk with
      | .error e => (h, some e)
      | .ok true =>
        match fk with
        | some (Json.str k) =>
          match refLookup r k with
          | some a =>
            match heapGet h a with
            | some e0 =>
              let h1 := heapSet h a { e0 with value := (objGet fs (pystr "value")).getD (Json.str []) }
              match heapGet h1 a with
              | some e1 =>
                (heapSet h1 a { e1 with state := (objGet fs (pystr "state")).getD (Json.str (pystr "partial")) }, none)
              | none => (h1, none)
            | none => (h, none)
          | none => (h, none)
        | _ => (h, none)
      | .ok false => (h, none)
    | _ => (h, some .attributeError)

/-- Heap-model directive loop. -/
def processBlocksHeap (blocks : List (List Char)) (h : Heap) (r : PitchRef) :
    Heap × Option PyErr :=
  match blocks with
  | [] => (h, none)
  | b :: rest =>
    match applyBlockHeap b h r with
    | (h1, none) => processBlocksHeap rest h1 r
    | (h1, some e) => (h1, some e)

/-- Heap-model ingest response processing (source lines 114-149): deep-copy
the input record, apply the directives by mutating only the copied inner
dicts, and return the copied record with the display message and readiness
flag.  The final heap is returned in every outcome, so non-mutation of the
caller record can be stated even for aborting runs. -/
def ingest_heap (h : Heap) (r : PitchRef) (msg : List Char) :
    Heap × Except PyErr (PitchRef × List Char × Bool) :=
  let copied := deepcopyHeap h r
  let step : Heap × Option PyErr :=
    if containsSub UPDATE_DELIM msg then processBlocksHeap (extractBlocks msg) copied.1 copied.2
    else (copied.1, none)
  match step with
  | (h2, some e) => (h2, .error e)
  | (h2, none) =>
    (h2, .ok (copied.2, displayPure msg, containsSub READY_MARKER msg))

/-- Field display names and descriptions (source FIELD_INFO). -/
def FIELD_INFO : List (List Char × List Char × List Char) :=
  [ (pystr "problem_definition", pystr "Problem Definition",
     pystr "What specific problem does your startup solve?")
  , (pystr "solution_description", pystr "Solution Description",
     pystr "What is your solution?")
  , (pystr "icp", pystr "Ideal Customer Profile",
     pystr "Who specifically experiences this problem?") ]

/-- FIELD_INFO[field_key]["name"], when the key is known. -/
def fieldInfoName (k : List Char) : Option (List Char) :=
  match FIELD_INFO.find? (fun t => t.1 = k) with
  | some t => some t.2.1
  | none => none

/-- Join with a separator. -/
def joinSep (sep : List Char) : List (List Char) → List Char
  | [] => []
  | [x] => x
  | x :: y :: rest => x ++ sep ++ joinSep sep (y :: rest)

/-- Python repr of a decoded JSON value, depth-bounded (containers render
their elements; repr string quoting and float digit rendering are
approximated, which no claim relies on since field values reaching prompts
are plain strings in every exercised run). -/
def pyReprFuel : Nat → Json → List Char
  | 0, _ => []
  | Nat.succ f, j =>
    match j with
    | Json.null => pystr "None"
    | Json.bool true => pystr "True"
    | Json.bool false => pystr "False"
    | Json.num n => pystr (toString n)
    | Json.flt m e => pystr (toString m) ++ pystr "e" ++ pystr (toString e)
    | Json.nan => pystr "nan"
    | Json.inf false => pystr "inf"
    | Json.inf true => pystr "-inf"
    | Json.str s => Char.ofNat 39 :: s ++ [Char.ofNat 39]
    | Json.arr xs => '[' :: joinSep (pystr ", ") (xs.map (pyReprFuel f)) ++ [']']
    | Json.obj fs =>
      lbrace :: joinSep (pystr ", ")
        (fs.map (fun p => (Char.ofNat 39 :: p.1 ++ [Char.ofNat 39] ++ pystr ": ") ++ pyReprFuel f p.2))
        ++ [rbrace]

/-- Structural depth of a decoded JSON value (enough fuel for pyReprFuel). -/
def jsonDepth (j : Json) : Nat :=
  match j with
  | Json.arr xs => 1 + (xs.attach.map (fun p => jsonDepth p.1)).foldl max 0
  | Json.obj fs => 1 + (fs.attach.map (fun p => jsonDepth p.1.2)).foldl max 0
  | _ => 1
termination_by sizeOf j
decreasing_by
  · have h := List.sizeOf_lt_of_mem p.2
    simp only [Json.arr.sizeOf_spec]
    omega
  · have h := List.sizeOf_lt_of_mem p.2
    obtain ⟨⟨k, v⟩, hp⟩ := p
    simp only [Prod.mk.sizeOf_spec, Json.obj.sizeOf_spec] at h ⊢
    omega

/-- Python str() of a decoded JSON value as interpolated in an f-string. -/
def pyStrOfJson (j : Json) : List Char :=
  match j with
  | Json.str s => s
  | Json.bool true => pystr "True"
  | Json.bool false => pystr "False"
  | Json.null => pystr "None"
  | Json.num n => pystr (toString n)
  | other => pyReprFuel (jsonDepth other) other

/-- Build the pitch summary (source lines 158-162): the display name and
value of each field; an unknown key raises KeyError at FIELD_INFO lookup. -/
def pitchSummaryGo (pd : PitchData) (acc : List Char) : Except PyErr (List Char) :=
  match pd with
  | [] => .ok acc
  | (k, e) :: rest =>
    match fieldInfoName k with
    | none => .error .keyError
    | some nm =>
      pitchSummaryGo rest (acc ++ nm ++ pystr ":\n" ++ pyStrOfJson e.value ++ pystr "\n\n")

/-- The pitch summary string of a record. -/
def pitchSummary (pd : PitchData) : Except PyErr (List Char) :=
  pitchSummaryGo pd (pystr "PITCH SUMMARY:\n\n")

/-- A chat message sent to the model capability. -/
structure ChatMessage where
  role : List Char
  content : List Char

/-- One completion request: the parameters of a client.chat.completions.create
call (response format reduced to whether strict JSON mode is demanded). -/
structure Request where
  model : List Char
  messages : List ChatMessage
  temperature : ℚ
  json_mode : Bool

/-- Research-stage prompt (source lines 165-174), as the text around the
embedded pitch summary. -/
def webResearchPrompt (s : List Char) : List Char :=
  pystr "Research the competitive landscape for this startup pitch using web search. Find REAL, current information about:\n\n"
  ++ s ++
  pystr "\n\nSearch for and identify:\n1. **Direct competitors** - Companies solving the exact same problem with similar solutions (find 2-3 specific company names with their funding, market position, and key features)\n2. **Indirect competitors** - Alternative approaches or solutions in this space (identify 2-3 specific companies or solution categories)\n3. **Market dynamics** - Recent funding rounds, acquisitions, market trends, growth rates in this space\n\nProvide SPECIFIC company names, funding amounts, founding dates, and verifiable data. Cite sources."

/-- Synthesis-stage prompt (source lines 190-219): embeds the pitch summary
and the stage-1 research output. -/
def competitiveAnalysisPrompt (s r1 : List Char) : List Char :=
  pystr "Based on the web search findings below, create a structured competitive landscape analysis:\n\n"
  ++ s ++
  pystr "\n\nRESEARCH FINDINGS:\n"
  ++ r1 ++
  pystr "\n\nStructure your analysis as follows:\n\n**DIRECT COMPETITORS:**\nList 2-3 companies solving the exact same problem with similar approaches. For each:\n- Company name and brief description\n- Why they matter (market share, funding, user base)\n- Key differentiators from this pitch\n\n**INDIRECT COMPETITORS:**\nList 2-3 solutions that address the same need differently. For each:\n- Solution type and key players\n- Why users choose this alternative\n- What makes it competitive\n\n**SUBSTITUTE BEHAVIORS:**\nWhat do people do today when they don\x27t use any product? Why does this matter?\n\n**MARKET DYNAMICS:**\n- Recent funding/exits in this space\n- Market trends (growing/declining/saturated)\n- Switching costs and user lock-in factors\n\nUse the research findings to provide SPECIFIC company names and data. If data is unavailable, note that explicitly."

/-- Scoring-stage system prompt (source lines 233-275): the JSON contract
text around the embedded stage-2 competitive analysis. -/
def scoringSystemPrompt (r2 : List Char) : List Char :=
  pystr "You are a savvy YC-style investor evaluating startup pitches. Be OBJECTIVE and HONEST.\n\nEvaluate this pitch and respond with a JSON object with these exact fields:\n\n\x7b\n  \"problem_clarity\": \x7b\n    \"score\": 1-10,\n    \"assessment\": \"Clear explanation of score and whether the problem is well-defined, specific, and compelling\"\n  \x7d,\n  \"severity\": \x7b\n    \"score\": 1-10,\n    \"assessment\": \"How painful is this problem? Is it a must-have or nice-to-have? Do people actively seek solutions?\"\n  \x7d,\n  \"competitive_analysis\": \x7b\n    \"summary\": \"Use the competitive research provided below\",\n    \"competitive_advantage\": \"Critical assessment of whether this solution is actually better/defensible\"\n  \x7d,\n  \"gtm_challenges\": \x7b\n    \"organic_viral_potential\": \x7b\n      \"feasibility\": \"LOW/MEDIUM/HIGH - Can this realistically grow organically/virally?\",\n      \"reasoning\": \"Specific analysis of network effects, word-of-mouth triggers, viral loops. Are competitors succeeding with organic growth? What\x27s the benchmark?\",\n      \"competitor_examples\": \"Which competitors (if any) are growing organically? What\x27s their playbook?\"\n    \x7d,\n    \"paid_acquisition\": \x7b\n      \"competitiveness\": \"LOW/MEDIUM/HIGH - How competitive is paid marketing in this space?\",\n      \"unit_economics\": \"Analysis of CAC, LTV, payback period. Is profitable paid acquisition realistic given competitive pressure?\",\n      \"channels\": \"What channels work? CPCs/CPMs? How saturated?\"\n    \x7d,\n    \"retention_monetization\": \x7b\n      \"assessment\": \"Can you retain users and monetize well enough to overcome acquisition costs?\"\n    \x7d,\n    \"overall_gtm_score\": 1-10\n  \x7d,\n  \"overall_verdict\": \x7b\n    \"decision\": \"FUNDABLE or NOT FUNDABLE YET\",\n    \"reasoning\": \"2-3 sentence bottom line explanation\"\n  \x7d\n\x7d\n\nCOMPETITIVE RESEARCH:\n"
  ++ r2 ++
  pystr "\n\nBe harsh and realistic. Don\x27t sugarcoat. Focus on what actually matters for venture-scale returns."

/-- The stage-1 request (source lines 178-185). -/
def researchReq (s : List Char) : Request :=
  { model := pystr "gpt-4o"
  , messages :=
      [ { role := pystr "system"
        , content := pystr "You are a startup research analyst with extensive knowledge of tech companies, funding data, and market trends. Provide specific company names and data based on your training data." }
      , { role := pystr "user", content := webResearchPrompt s } ]
  , temperature := 0.3
  , json_mode := false }

/-- The stage-2 request (source lines 221-228). -/
def synthReq (s r1 : List Char) : Request :=
  { model := pystr "gpt-4o"
  , messages :=
      [ { role := pystr "system"
        , content := pystr "You are a startup research analyst synthesizing research into a structured competitive analysis. Use specific company names and data from the research provided." }
      , { role := pystr "user", content := competitiveAnalysisPrompt s r1 } ]
  , temperature := 0.5
  , json_mode := false }

/-- The stage-3 request (source lines 277-287). -/
def scoreReq (r2 s : List Char) : Request :=
  { model := pystr "gpt-4o"
  , messages :=
      [ { role := pystr "system", content := scoringSystemPrompt r2 }
      , { role := pystr "user", content := pystr "Evaluate this pitch:\n\n" ++ s } ]
  , temperature := 0.7
  , json_mode := true }

/-- Result of evaluate (source lines 291-294). -/
structure EvaluateResult where
  evaluation : Json
  competitive_analysis_full : List Char

/-- The evaluation pipeline against a deterministic model capability client
(source lines 151-294), instrumented with the list of requests issued, in
order: build the pitch summary (KeyError on an unknown field key, before any
call), issue the research, synthesis and scoring requests, each prompt
embedding the previous output, then decode the final response as JSON. -/
def evaluateCore (client : Request → List Char) (pd : PitchData) :
    List Request × Except PyErr EvaluateResult :=
  match pitchSummary pd with
  | .error e => ([], .error e)
  | .ok s =>
    let q1 := researchReq s
    let r1 := client q1
    let q2 := synthReq s r1
    let r2 := client q2
    let q3 := scoreReq r2 s
    let r3 := client q3
    ([q1, q2, q3],
      match json_loads r3 with
      | none => .error .jsonDecodeError
      | some v => .ok { evaluation := v, competitive_analysis_full := r2 })

/-- Evaluates the pitch (source: evaluate): the returned value. -/
def evaluate (client : Request → List Char) (pd : PitchData) :
    Except PyErr EvaluateResult :=
  (evaluateCore client pd).2

/-- The model calls evaluate issues, in order. -/
def evaluateTrace (client : Request → List Char) (pd : PitchData) : List Request :=
  (evaluateCore client pd).1

/-- Concrete model response used for the C1 witness: two valid directive
blocks around one malformed block (the example of section 8 item 3). -/
def msgC1 : List Char :=
  pystr "Great! ---UPDATE--- \x7b\"field_key\": \"problem_definition\", \"value\": \"parking\", \"state\": \"complete\"\x7d ---END--- ---UPDATE--- \x7bbad json ---END--- ---UPDATE--- \x7b\"field_key\": \"icp\", \"value\": \"drivers\", \"state\": \"complete\"\x7d ---END---"

/-- Concrete model response whose single directive decodes to an object with
an unhashable (list) field_key. -/
def msgC1x : List Char := pystr "Ok ---UPDATE--- \x7b\"field_key\": []\x7d ---END---"

/-- Concrete heap for the C3 witness: three allocated default entries. -/
def heapC3 : Heap := [defaultEntry, defaultEntry, defaultEntry]

/-- Concrete record reference for the C3 witness. -/
def refC3 : PitchRef :=
  [ (pystr "problem_definition", 0), (pystr "solution_description", 1), (pystr "icp", 2) ]

/-- Concrete model response for the C3 witness: one valid directive. -/
def msgC3 : List Char :=
  pystr "Thanks! ---UPDATE--- \x7b\"field_key\": \"icp\", \"value\": \"students\", \"state\": \"complete\"\x7d ---END---"

/-- Expected final heap of the C3 witness run: the three caller cells
unchanged, three copied cells, the copied icp cell overwritten. -/
def heapC3out : Heap :=
  [ defaultEntry, defaultEntry, defaultEntry, defaultEntry, defaultEntry
  , { value := Json.str (pystr "students"), state := Json.str (pystr "complete") } ]

/-- Expected returned record reference of the C3 witness run. -/
def refC3out : PitchRef :=
  [ (pystr "problem_definition", 3), (pystr "solution_description", 4), (pystr "icp", 5) ]

/-- Concrete model response refuting C4 as stated: removing the marker from
the stripped prefix splices a fresh marker occurrence into the display. -/
def msgC4x : List Char :=
  pystr "A ---READY_FOR_EVAL---READY_FOR_EVALUATION---UATION--- B ---UPDATE--- x ---END---"

/-- Concrete model response for the C4 witness: clean natural text, then a
directive block, then the readiness marker. -/
def msgC4 : List Char :=
  pystr "Sounds good. ---UPDATE--- \x7b\"field_key\": \"icp\", \"value\": \"cafes\", \"state\": \"complete\"\x7d ---END--- ---READY_FOR_EVALUATION---"

/-- Concrete model response for the C6 witness: no directives, no marker. -/
def msgC6 : List Char := pystr "Tell me more about the problem."

/-- Concrete record for the C7 witness: exactly two fields complete. -/
def pdC7 : PitchData :=
  [ (pystr "problem_definition",
     { value := Json.str (pystr "parking"), state := Json.str (pystr "complete") })
  , (pystr "solution_description",
     { value := Json.str (pystr "app"), state := Json.str (pystr "complete") })
  , (pystr "icp",
     { value := Json.str (pystr "drivers"), state := Json.str (pystr "partial") }) ]

/-- A field entry whose state is outside the three canonical values. -/
def entC7 : FieldEntry := { value := Json.str [], state := Json.num 7 }

/-- Concrete model response for C9: a well-delimited directive whose text is
valid JSON but a bare number, not an object. -/
def msgC9 : List Char := pystr "Noted. ---UPDATE--- 42 ---END---"

/-- Concrete model response for the C10 witness: a decoded directive with a
known field_key but no value and no state payload keys. -/
def msgC10 : List Char := pystr "Got it. ---UPDATE--- \x7b\"field_key\": \"icp\"\x7d ---END---"

/-- Deterministic client for the C5 witness. -/
def clientGood : Request → List Char :=
  fun q => if q.json_mode then pystr "\x7b\"ok\": true\x7d" else pystr "RESEARCH NOTES"

/-- Deterministic client for the C2 witness: replies with invalid JSON. -/
def clientBad : Request → List Char := fun _ => pystr "not json"

/-- The pitch summary of the default record. -/
def sDefault : List Char :=
  pystr "PITCH SUMMARY:\n\nProblem Definition:\n\n\nSolution Description:\n\n\nIdeal Customer Profile:\n\n\n"

/-- Expected ingest result on msgC4. -/
def resC4 : IngestResult :=
  { pitch_data :=
      [ (pystr "problem_definition", { value := Json.str [], state := Json.str (pystr "unknown") })
      , (pystr "solution_description", { value := Json.str [], state := Json.str (pystr "unknown") })
      , (pystr "icp", { value := Json.str (pystr "cafes"), state := Json.str (pystr "complete") }) ]
  , response := pystr "Sounds good."
  , ready_for_evaluation := true }

/-- The single directive text extracted from msgC10. -/
def bC10 : List Char := pystr "\x7b\"field_key\": \"icp\"\x7d"

/-- The decoded object fields of bC10. -/
def fsC10 : List (List Char × Json) := [(pystr "field_key", Json.str (pystr "icp"))]

/-- Expected ingest result on msgC10: icp overwritten with the defaults. -/
def resC10 : IngestResult :=
  { pitch_data :=
      [ (pystr "problem_definition", { value := Json.str [], state := Json.str (pystr "unknown") })
      , (pystr "solution_description", { value := Json.str [], state := Json.str (pystr "unknown") })
      , (pystr "icp", { value := Json.str [], state := Json.str (pystr "partial") }) ]
  , response := pystr "Got it."
  , ready_for_evaluation := false }

theorem containsSub_true_iff (n h : List Char) : containsSub n h = true ↔ n <:+: h := by
  induction h with
  | nil =>
    cases n with
    | nil => simp [containsSub, findSub, List.isPrefixOf]
    | cons a as =>
      simp only [containsSub, findSub, List.isPrefixOf, if_false, Option.isSome_none,
        Bool.false_eq_true, false_iff]
      intro hinf
      rcases hinf with ⟨x, y, hxy⟩
      have hx := congrArg List.length hxy
      simp [List.length_append] at hx
  | cons c t ih =>
    by_cases hp : n.isPrefixOf (c :: t)
    · have hfind : findSub n (c :: t) = some 0 := by
        show (if n.isPrefixOf (c :: t) = true then some 0 else (findSub n t).map (· + 1)) = some 0
        rw [if_pos hp]
      unfold containsSub
      rw [hfind]
      simp only [Option.isSome_some, true_iff]
      exact (List.isPrefixOf_iff_prefix.mp hp).isInfix
    · have hfind : findSub n (c :: t) = (findSub n t).map (· + 1) := by
        show (if n.isPrefixOf (c :: t) = true then some 0 else (findSub n t).map (· + 1)) =
          (findSub n t).map (· + 1)
        rw [if_neg hp]
      unfold containsSub
      rw [hfind]
      have hmap : ((findSub n t).map (· + 1)).isSome = (findSub n t).isSome := by
        cases findSub n t <;> rfl
      rw [hmap]
      show containsSub n t = true ↔ n <:+: c :: t
      rw [ih, List.infix_cons_iff]
      constructor
      · exact fun hx => Or.inr hx
      · rintro (hpre | hinf)
        · exact absurd (List.isPrefixOf_iff_prefix.mpr hpre) hp
        · exact hinf

theorem containsSub_middle (a n b : List Char) : containsSub n (a ++ n ++ b) = true :=
  (containsSub_true_iff n (a ++ n ++ b)).mpr ⟨a, b, rfl⟩

theorem not_containsSub_of_within (n : List Char) {h h2 : List Char}
    (hsub : h2 <:+: h) (hc : containsSub n h = false) : containsSub n h2 = false := by
  cases hval : containsSub n h2 with
  | false => rfl
  | true =>
    have h1 := (containsSub_true_iff n h2).mp hval
    have h3 := (containsSub_true_iff n h).mpr (h1.trans hsub)
    rw [h3] at hc
    exact hc

theorem stripWS_within (s : List Char) : stripWS s <:+: s := by
  unfold stripWS
  have h1 : s.dropWhile pyWS <:+ s := List.dropWhile_suffix pyWS
  have h2 : ((s.dropWhile pyWS).reverse.dropWhile pyWS) <:+ (s.dropWhile pyWS).reverse :=
    List.dropWhile_suffix pyWS
  have h3 : ((s.dropWhile pyWS).reverse.dropWhile pyWS).reverse <+:
      (s.dropWhile pyWS).reverse.reverse := by
    rw [List.reverse_prefix]
    exact h2
  rw [List.reverse_reverse] at h3
  exact h3.isInfix.trans h1.isInfix

theorem findSub_take_not_contains (n : List Char) (hn : n ≠ []) :
    ∀ (h : List Char) (i : Nat), findSub n h = some i → containsSub n (h.take i) = false := by
  intro h
  induction h with
  | nil =>
    intro i hf
    unfold findSub at hf
    rw [if_neg (fun hp => hn (List.prefix_nil.mp (List.isPrefixOf_iff_prefix.mp hp)))] at hf
    exact Option.noConfusion hf
  | cons c t ih =>
    intro i hf
    unfold findSub at hf
    by_cases hp : n.isPrefixOf (c :: t)
    · rw [if_pos hp] at hf
      cases hf
      simp only [List.take_zero]
      cases hval : containsSub n [] with
      | false => rfl
      | true =>
        have h1 := (containsSub_true_iff n []).mp hval
        rcases h1 with ⟨a, b, hab⟩
        have hnn : n = [] := by
          rcases List.append_eq_nil.mp hab with ⟨h1, -⟩
          exact (List.append_eq_nil.mp h1).2
        exact absurd hnn hn
    · rw [if_neg hp] at hf
      rcases Option.map_eq_some'.mp hf with ⟨j, hj, hji⟩
      subst hji
      simp only [List.take_succ_cons]
      cases hval : containsSub n (c :: t.take j) with
      | false => rfl
      | true =>
        have h1 := (containsSub_true_iff n (c :: t.take j)).mp hval
        rcases (List.infix_cons_iff).mp h1 with hpre | hinf
        · have hcontra : n <+: c :: t := hpre.trans
            (by exact (List.cons_prefix_cons).mpr ⟨rfl, List.take_prefix j t⟩)
          exact absurd (List.isPrefixOf_iff_prefix.mpr hcontra) (by simpa using hp)
        · have hx := (containsSub_true_iff n (t.take j)).mpr hinf
          rw [ih j hj] at hx
          exact hx.symm

theorem splitAll_of_none (sep s : List Char) (hsep : sep ≠ [])
    (hf : findSub sep s = none) : splitAll sep s = [s] := by
  unfold splitAll
  rw [if_neg hsep]
  show (match findSub sep s with
    | none => [s]
    | some i => s.take i :: splitAllGo sep s.length (s.drop (i + sep.length))) = [s]
  rw [hf]

theorem splitAll_head (sep s : List Char) (hsep : sep ≠ []) :
    pyIdx0 (splitAll sep s) = prefixBeforeFirst sep s := by
  unfold splitAll
  rw [if_neg hsep]
  show pyIdx0 (match findSub sep s with
    | none => [s]
    | some i => s.take i :: splitAllGo sep s.length (s.drop (i + sep.length))) =
    prefixBeforeFirst sep s
  cases hf : findSub sep s <;> simp [prefixBeforeFirst, pyIdx0, hf]

theorem extractBlocks_eq_nil (msg : List Char) (h : containsSub UPDATE_DELIM msg = false) :
    extractBlocks msg = [] := by
  have hf : findSub UPDATE_DELIM msg = none := by
    unfold containsSub at h
    cases hx : findSub UPDATE_DELIM msg with
    | none => rfl
    | some i => rw [hx] at h; exact absurd h (by simp)
  unfold extractBlocks
  rw [splitAll_of_none UPDATE_DELIM msg (by decide) hf]
  rfl

theorem contains_of_extract_ne (msg : List Char) (h : extractBlocks msg ≠ []) :
    containsSub UPDATE_DELIM msg = true := by
  cases hc : containsSub UPDATE_DELIM msg with
  | false => exact absurd (extractBlocks_eq_nil msg hc) h
  | true => rfl

theorem applyBlock_safe (b : List Char) (pd : PitchData) (hs : blockSafe b = true) :
    applyBlock b pd = .ok (specStep pd b) := by
  unfold blockSafe at hs
  unfold applyBlock specStep
  cases hj : json_loads b with
  | none => simp only []
  | some u =>
    simp only [hj] at hs
    simp only []
    cases u with
    | obj fs =>
      simp only [] at hs
      cases hfk : objGet fs (pystr "field_key") with
      | none => simp [hfk, pyKeyContains, specFieldKey]
      | some j =>
        simp only [hfk] at hs
        cases j with
        | str k =>
          by_cases hk : k ∈ pdKeys pd
          · simp [hfk, pyKeyContains, specFieldKey, specOverwrite, hk]
          · simp [hfk, pyKeyContains, specFieldKey, hk]
        | arr xs => simp at hs
        | obj gs => simp at hs
        | null => simp [hfk, pyKeyContains, specFieldKey]
        | bool v => simp [hfk, pyKeyContains, specFieldKey]
        | num v => simp [hfk, pyKeyContains, specFieldKey]
        | flt m e => simp [hfk, pyKeyContains, specFieldKey]
        | nan => simp [hfk, pyKeyContains, specFieldKey]
        | inf v => simp [hfk, pyKeyContains, specFieldKey]
    | null => simp at hs
    | bool v => simp at hs
    | num v => simp at hs
    | flt m e => simp at hs
    | nan => simp at hs
    | inf v => simp at hs
    | str s => simp at hs
    | arr xs => simp at hs

theorem processBlocks_safe (blocks : List (List Char)) (pd : PitchData)
    (h : ∀ b ∈ blocks, blockSafe b = true) :
    processBlocks blocks pd = .ok (specApplyDirectives blocks pd) := by
  induction blocks generalizing pd with
  | nil => rfl
  | cons b rest ih =>
    have hb := h b (by simp)
    have hrest : ∀ x ∈ rest, blockSafe x = true := fun x hx => h x (by simp [hx])
    unfold processBlocks specApplyDirectives
    rw [applyBlock_safe b pd hb]
    simp only [List.foldl_cons]
    exact ih (specStep pd b) hrest

theorem pdKeys_length (pd : PitchData) : pd.length = (pdKeys pd).length := by
  unfold pdKeys
  rw [List.length_map]

theorem pdLookup_overwrite (pd : PitchData) (k : List Char) (v st : Json)
    (hk : k ∈ pdKeys pd) :
    pdLookup (pdSetState (pdSetValue pd k v) k st) k = some { value := v, state := st } := by
  induction pd with
  | nil =>
    simp only [pdKeys, List.map_nil] at hk
    exact absurd hk (List.not_mem_nil k)
  | cons p rest ih =>
    obtain ⟨k0, e⟩ := p
    by_cases hk0 : k0 = k
    · subst hk0
      simp [pdSetValue, pdSetState, pdLookup]
    · have hk2 : k ∈ pdKeys rest := by
        simp only [pdKeys, List.map_cons, List.mem_cons] at hk
        rcases hk with h1 | h2
        · exact absurd h1.symm hk0
        · exact h2
      simp only [pdSetValue, pdSetState, pdLookup, if_neg hk0]
      exact ih hk2

theorem heapGet_append_left (h h2 : Heap) (a : Nat) (ha : a < h.length) :
    heapGet (h ++ h2) a = heapGet h a := by
  induction h generalizing a with
  | nil => exact absurd ha (by simp)
  | cons e t ih =>
    cases a with
    | zero => rfl
    | succ a2 =>
      show heapGet (t ++ h2) a2 = heapGet t a2
      exact ih a2 (by simpa using ha)

theorem heapGet_set_ne (h : Heap) (a b : Nat) (e : FieldEntry) (hab : a ≠ b) :
    heapGet (heapSet h a e) b = heapGet h b := by
  induction h generalizing a b with
  | nil => rfl
  | cons x t ih =>
    cases a with
    | zero =>
      cases b with
      | zero => exact absurd rfl hab
      | succ b2 => rfl
    | succ a2 =>
      cases b with
      | zero => rfl
      | succ b2 => exact ih a2 b2 (fun hc => hab (by rw [hc]))

theorem deepcopy_preserves (r : PitchRef) (h : Heap) (a : Nat) (ha : a < h.length) :
    heapGet (deepcopyHeap h r).1 a = heapGet h a := by
  induction r generalizing h with
  | nil => rfl
  | cons p rest ih =>
    obtain ⟨k, ad⟩ := p
    show heapGet (deepcopyHeap (h ++ [(heapGet h ad).getD defaultEntry]) rest).1 a = heapGet h a
    rw [ih (h ++ [(heapGet h ad).getD defaultEntry]) (by simp; omega)]
    exact heapGet_append_left h _ a ha

theorem deepcopy_fresh (r : PitchRef) (h : Heap) :
    ∀ p ∈ (deepcopyHeap h r).2, h.length ≤ p.2 := by
  induction r generalizing h with
  | nil => intro p hp; exact absurd hp (List.not_mem_nil p)
  | cons q rest ih =>
    obtain ⟨k, ad⟩ := q
    intro p hp
    have hshape : (deepcopyHeap h ((k, ad) :: rest)).2 =
        (k, h.length) :: (deepcopyHeap (h ++ [(heapGet h ad).getD defaultEntry]) rest).2 := rfl
    rw [hshape] at hp
    rcases List.mem_cons.mp hp with h1 | h2
    · rw [h1]
    · have := ih (h ++ [(heapGet h ad).getD defaultEntry]) p h2
      simp only [List.length_append, List.length_cons, List.length_nil] at this
      omega

theorem refLookup_mem (r : PitchRef) (k : List Char) (a : Nat)
    (hf : refLookup r k = some a) : (k, a) ∈ r := by
  induction r with
  | nil => exact Option.noConfusion hf
  | cons q rest ih =>
    obtain ⟨k0, a0⟩ := q
    unfold refLookup at hf
    by_cases hk : k0 = k
    · rw [if_pos hk] at hf
      cases hf
      subst hk
      exact List.mem_cons_self _ _
    · rw [if_neg hk] at hf
      exact List.mem_cons_of_mem _ (ih hf)

theorem applyBlockHeap_frame (b : List Char) (h : Heap) (r : PitchRef) (N : Nat)
    (hr : ∀ p ∈ r, N ≤ p.2) (a : Nat) (ha : a < N) :
    heapGet (applyBlockHeap b h r).1 a = heapGet h a := by
  unfold applyBlockHeap
  cases hj : json_loads b with
  | none => rfl
  | some u =>
    cases u with
    | obj fs =>
      simp only []
      cases hc : pyKeyContainsRef r (objGet fs (pystr "field_key")) with
      | error e => simp only [hc]
      | ok bres =>
        cases bres with
        | false => simp only [hc]
        | true =>
          simp only [hc]
          cases hfk : objGet fs (pystr "field_key") with
          | none => simp only [hfk]
          | some j =>
            cases j with
            | str k =>
              simp only [hfk]
              cases hrl : refLookup r k with
              | none => simp only [hrl]
              | some a2 =>
                have hmem := refLookup_mem r k a2 hrl
                have hN := hr (k, a2) hmem
                have hne : a2 ≠ a := by omega
                simp only [hrl]
                cases hg0 : heapGet h a2 with
                | none => simp only [hg0]
                | some e0 =>
                  simp only [hg0]
                  cases hg1 : heapGet (heapSet h a2
                      { e0 with value := (objGet fs (pystr "value")).getD (Json.str []) }) a2 with
                  | none =>
                    simp only [hg1]
                    exact heapGet_set_ne h a2 a _ hne
                  | some e1 =>
                    simp only [hg1]
                    rw [heapGet_set_ne _ a2 a _ hne]
                    exact heapGet_set_ne h a2 a _ hne
            | null => simp only [hfk]
            | bool v => simp only [hfk]
            | num v => simp only [hfk]
            | flt m e => simp only [hfk]
            | nan => simp only [hfk]
            | inf v => simp only [hfk]
            | arr xs => simp only [hfk]
            | obj gs => simp only [hfk]
    | null => rfl
    | bool v => rfl
    | num v => rfl
    | flt m e => rfl
    | nan => rfl
    | inf v => rfl
    | str s => rfl
    | arr xs => rfl

theorem processBlocksHeap_frame (blocks : List (List Char)) (h : Heap) (r : PitchRef)
    (N : Nat) (hr : ∀ p ∈ r, N ≤ p.2) (a : Nat) (ha : a < N) :
    heapGet (processBlocksHeap blocks h r).1 a = heapGet h a := by
  induction blocks generalizing h with
  | nil => rfl
  | cons b rest ih =>
    unfold processBlocksHeap
    cases happ : applyBlockHeap b h r with
    | mk h1 err =>
      have hfr : heapGet h1 a = heapGet h a := by
        have := applyBlockHeap_frame b h r N hr a ha
        rw [happ] at this
        exact this
      cases err with
      | none =>
        simp only []
        rw [ih h1]
        exact hfr
      | some e => simpa using hfr

/-- Claim C1 (corrected): for every model response whose directive blocks are
each either malformed JSON or a decoded object with a hashable field_key,
ingest succeeds and the returned record is exactly the spec-level
application of the directives: malformed blocks are skipped without aborting
the others, decoded objects with a known string field_key are applied, and
all other decoded directives are silently ignored.  (As originally stated
the claim fails: an unhashable field_key raises TypeError, see the
counterexample.) -/
theorem ingest_applies_exactly_valid_directives (msg : List Char) (pd : PitchData)
    (h : ∀ b ∈ extractBlocks msg, blockSafe b = true) :
    ingest msg pd = .ok
      { pitch_data := specApplyDirectives (extractBlocks msg) pd
      , response := displayPure msg
      , ready_for_evaluation := containsSub READY_MARKER msg } := by
  unfold ingest
  cases hc : containsSub UPDATE_DELIM msg with
  | false =>
    rw [extractBlocks_eq_nil msg hc]
    simp only [specApplyDirectives, List.foldl_nil, hc, Bool.false_eq_true, if_false]
  | true =>
    simp only [hc, if_true]
    rw [processBlocks_safe _ _ h]

/-- Claim C1 counterexample: a response with one well-delimited directive
decoding to an object whose field_key is a list makes ingest raise an
uncaught TypeError instead of silently ignoring the unknown-key directive
and returning a record. -/
theorem ingest_unhashable_fieldkey_raises :
    ingest msgC1x get_default_pitch_data = .error PyErr.typeError := by rfl

/-- Claim C1 witness: on the spec example (two valid blocks, one malformed),
every block is safe and ingest returns exactly the two applied updates. -/
theorem ingest_applies_exactly_valid_directives_witness :
    (∀ b ∈ extractBlocks msgC1, blockSafe b = true) ∧
    ingest msgC1 get_default_pitch_data = .ok
      { pitch_data := specApplyDirectives (extractBlocks msgC1) get_default_pitch_data
      , response := displayPure msgC1
      , ready_for_evaluation := containsSub READY_MARKER msgC1 } :=
  ⟨by decide, ingest_applies_exactly_valid_directives msgC1 get_default_pitch_data (by decide)⟩

/-- Claim C6: whenever ingest returns, the readiness flag is exactly the
presence of the readiness marker anywhere in the raw response, independently
of the directives; and a response with no directives and no marker leaves
the record unchanged, echoes the message, and reports readiness false. -/
theorem ingest_ready_iff_marker (msg : List Char) (pd : PitchData) :
    (∀ res : IngestResult, ingest msg pd = .ok res →
      res.ready_for_evaluation = containsSub READY_MARKER msg)
    ∧ (containsSub UPDATE_DELIM msg = false → containsSub READY_MARKER msg = false →
        ingest msg pd = .ok { pitch_data := pd, response := msg, ready_for_evaluation := false }) := by
  constructor
  · intro res hres
    unfold ingest at hres
    cases hstep : (if containsSub UPDATE_DELIM msg = true then
        processBlocks (extractBlocks msg) pd else .ok pd) with
    | error e =>
      rw [hstep] at hres
      exact absurd hres (by simp)
    | ok upd =>
      rw [hstep] at hres
      simp only [Except.ok.injEq] at hres
      rw [← hres]
  · intro h1 h2
    unfold ingest displayPure
    simp [h1, h2]

/-- Claim C9: a model response containing a well-delimited directive block
whose enclosed text is syntactically valid JSON but not a JSON object (here
a bare number) makes ingest fail with an uncaught AttributeError, producing
no result: only JSON decode failures are recovered, not decoded values of
the wrong shape. -/
theorem ingest_valid_json_non_object_raises :
    ingest msgC9 get_default_pitch_data = .error PyErr.attributeError := by rfl

/-- Claim C10: a successfully decoded directive object with a known
field_key tolerates missing payload keys: an absent value key yields the
empty string and an absent state key yields the state partial. -/
theorem ingest_defaults_for_missing_payload (msg b : List Char)
    (fs : List (List Char × Json)) (k : List Char) (pd : PitchData) (res : IngestResult)
    (hb : extractBlocks msg = [b])
    (hj : json_loads b = some (Json.obj fs))
    (hfk : objGet fs (pystr "field_key") = some (Json.str k))
    (hk : k ∈ pdKeys pd)
    (hok : ingest msg pd = .ok res) :
    (objGet fs (pystr "value") = none →
      (pdLookup res.pitch_data k).map FieldEntry.value = some (Json.str []))
    ∧ (objGet fs (pystr "state") = none →
      (pdLookup res.pitch_data k).map FieldEntry.state = some (Json.str (pystr "partial"))) := by
  have hcont : containsSub UPDATE_DELIM msg = true :=
    contains_of_extract_ne msg (by rw [hb]; simp)
  unfold ingest at hok
  rw [hb] at hok
  simp only [hcont, if_true] at hok
  simp only [processBlocks, applyBlock, hj, hfk, pyKeyContains, decide_eq_true hk] at hok
  simp only [Except.ok.injEq] at hok
  have hrec : res.pitch_data =
      pdSetState (pdSetValue pd k ((objGet fs (pystr "value")).getD (Json.str [])))
        k ((objGet fs (pystr "state")).getD (Json.str (pystr "partial"))) := by
    rw [← hok]
  constructor
  · intro hv
    rw [hrec, pdLookup_overwrite pd k _ _ hk]
    simp [hv]
  · intro hst
    rw [hrec, pdLookup_overwrite pd k _ _ hk]
    simp [hst]

/-- Claim C7: on a record with exactly the three known keys the statistics
report total three and percentage complete/3*100; a field entry whose state
is outside the three canonical values is counted in none of the complete,
partial or unknown counters yet still in the total, without failure; and the
percentage of an empty record is zero. -/
theorem get_completion_stats_spec :
    (∀ pd : PitchData,
      pdKeys pd = [pystr "problem_definition", pystr "solution_description", pystr "icp"] →
      (get_completion_stats pd).total = 3 ∧
      (get_completion_stats pd).percentage = ((get_completion_stats pd).complete : ℚ) / 3 * 100)
    ∧ (∀ (k : List Char) (e : FieldEntry) (rest : PitchData),
        isCanonicalState e.state = false →
        (get_completion_stats ((k, e) :: rest)).complete = (get_completion_stats rest).complete
        ∧ (get_completion_stats ((k, e) :: rest)).partialCount =
            (get_completion_stats rest).partialCount
        ∧ (get_completion_stats ((k, e) :: rest)).unknownCount =
            (get_completion_stats rest).unknownCount
        ∧ (get_completion_stats ((k, e) :: rest)).total = (get_completion_stats rest).total + 1)
    ∧ (get_completion_stats []).percentage = 0 := by
  refine ⟨?_, ?_, ?_⟩
  · intro pd hkeys
    have hlen : pd.length = 3 := by
      rw [pdKeys_length, hkeys]
      rfl
    unfold get_completion_stats
    simp only [hlen]
    constructor
    · trivial
    · rw [if_pos (by norm_num)]
      norm_num
  · intro k e rest hnc
    unfold isCanonicalState at hnc
    simp only [Bool.or_eq_false_iff] at hnc
    obtain ⟨⟨hu, hp⟩, hc⟩ := hnc
    unfold get_completion_stats
    simp [List.countP_cons, hu, hp, hc]
  · rfl

theorem heapGet_append_at (h l : Heap) (i : Nat) :
    heapGet (h ++ l) (h.length + i) = heapGet l i := by
  induction h with
  | nil => simp [heapGet]
  | cons e t ih =>
    have harith : (e :: t).length + i = Nat.succ (t.length + i) := by
      simp [List.length_cons]
      omega
    rw [List.cons_append, harith]
    show heapGet (t ++ l) (t.length + i) = heapGet l i
    exact ih

/-- Claim C6 witness. -/
theorem ingest_ready_iff_marker_witness :
    ingest msgC6 get_default_pitch_data = .ok
      { pitch_data := get_default_pitch_data, response := msgC6
      , ready_for_evaluation := false } :=
  (ingest_ready_iff_marker msgC6 get_default_pitch_data).2 (by decide) (by decide)

/-- Claim C10 witness: on a directive with only a field_key, the icp entry
receives the empty string value and the partial state. -/
theorem ingest_defaults_for_missing_payload_witness :
    (pdLookup resC10.pitch_data (pystr "icp")).map FieldEntry.value = some (Json.str [])
    ∧ (pdLookup resC10.pitch_data (pystr "icp")).map FieldEntry.state =
        some (Json.str (pystr "partial")) := by
  have h := ingest_defaults_for_missing_payload msgC10 bC10 fsC10 (pystr "icp")
    get_default_pitch_data resC10 (by rfl) (by rfl) (by rfl) (by decide) (by rfl)
  exact ⟨h.1 (by rfl), h.2 (by rfl)⟩

/-- Claim C7 witness: the concrete record with two complete fields, a
non-canonical extra entry, and the empty record. -/
theorem get_completion_stats_spec_witness :
    ((get_completion_stats pdC7).total = 3 ∧
      (get_completion_stats pdC7).percentage = ((get_completion_stats pdC7).complete : ℚ) / 3 * 100)
    ∧ ((get_completion_stats ((pystr "extra", entC7) :: pdC7)).complete =
          (get_completion_stats pdC7).complete
        ∧ (get_completion_stats ((pystr "extra", entC7) :: pdC7)).partialCount =
            (get_completion_stats pdC7).partialCount
        ∧ (get_completion_stats ((pystr "extra", entC7) :: pdC7)).unknownCount =
            (get_completion_stats pdC7).unknownCount
        ∧ (get_completion_stats ((pystr "extra", entC7) :: pdC7)).total =
            (get_completion_stats pdC7).total + 1)
    ∧ (get_completion_stats []).percentage = 0 := by
  have h := get_completion_stats_spec
  exact ⟨h.1 pdC7 (by decide), h.2.1 (pystr "extra") entC7 pdC7 (by decide), h.2.2⟩

/-- Claim C4 (corrected): whenever ingest returns, the display message is the
spec-level computation displaySpec (text before the first delimiter when one
is present, trimmed, then one-pass marker removal and re-trim when a marker
is present); moreover, when the delimiter occurs and no marker occurs in the
text before its first occurrence, the display is exactly that text trimmed
and contains neither the delimiter nor the marker.  (As originally stated
the claim fails, see the counterexample: one-pass marker removal can splice
a fresh marker occurrence into the display, and a marker before the first
delimiter makes the display differ from the trimmed prefix.) -/
theorem ingest_display_message_spec (msg : List Char) (pd : PitchData) (res : IngestResult)
    (hok : ingest msg pd = .ok res) :
    res.response = displaySpec msg
    ∧ (containsSub UPDATE_DELIM msg = true →
       containsSub READY_MARKER (prefixBeforeFirst UPDATE_DELIM msg) = false →
         res.response = stripWS (prefixBeforeFirst UPDATE_DELIM msg)
         ∧ containsSub UPDATE_DELIM res.response = false
         ∧ containsSub READY_MARKER res.response = false) := by
  have hresp : res.response = displayPure msg := by
    unfold ingest at hok
    cases hstep : (if containsSub UPDATE_DELIM msg = true then
        processBlocks (extractBlocks msg) pd else .ok pd) with
    | error e =>
      rw [hstep] at hok
      exact absurd hok (by simp)
    | ok upd =>
      rw [hstep] at hok
      simp only [Except.ok.injEq] at hok
      rw [← hok]
  have hdp : displayPure msg = displaySpec msg := by
    unfold displayPure displaySpec
    rw [splitAll_head UPDATE_DELIM msg (by decide)]
  constructor
  · rw [hresp, hdp]
  · intro hdel hmark
    obtain ⟨i, hf⟩ : ∃ i, findSub UPDATE_DELIM msg = some i := by
      unfold containsSub at hdel
      cases hx : findSub UPDATE_DELIM msg with
      | none => rw [hx] at hdel; exact absurd hdel (by simp)
      | some i => exact ⟨i, rfl⟩
    have hpre : prefixBeforeFirst UPDATE_DELIM msg = msg.take i := by
      unfold prefixBeforeFirst
      rw [hf]
    have hnodelim : containsSub UPDATE_DELIM (prefixBeforeFirst UPDATE_DELIM msg) = false := by
      rw [hpre]
      exact findSub_take_not_contains UPDATE_DELIM (by decide) msg i hf
    have hstripm : containsSub READY_MARKER (stripWS (prefixBeforeFirst UPDATE_DELIM msg)) = false :=
      not_containsSub_of_within READY_MARKER (stripWS_within _) hmark
    have hstripd : containsSub UPDATE_DELIM (stripWS (prefixBeforeFirst UPDATE_DELIM msg)) = false :=
      not_containsSub_of_within UPDATE_DELIM (stripWS_within _) hnodelim
    have hshow : res.response = stripWS (prefixBeforeFirst UPDATE_DELIM msg) := by
      rw [hresp, hdp]
      unfold displaySpec
      simp only [hdel, if_true, hstripm, Bool.false_eq_true, if_false]
    exact ⟨hshow, by rw [hshow]; exact hstripd, by rw [hshow]; exact hstripm⟩

/-- Claim C4 counterexample: for this response the delimiter is present, yet
the display message returned by ingest contains the readiness marker
(spliced together by the one-pass removal) and is not the trimmed text
before the first delimiter occurrence, refuting both parts of the claim as
stated. -/
theorem ingest_display_message_cex :
    containsSub UPDATE_DELIM msgC4x = true
    ∧ ingest msgC4x get_default_pitch_data = .ok
        { pitch_data := get_default_pitch_data
        , response := pystr "A ---READY_FOR_EVALUATION--- B"
        , ready_for_evaluation := true }
    ∧ containsSub READY_MARKER (pystr "A ---READY_FOR_EVALUATION--- B") = true
    ∧ pystr "A ---READY_FOR_EVALUATION--- B" ≠ stripWS (prefixBeforeFirst UPDATE_DELIM msgC4x) :=
  ⟨by decide, by rfl, by decide, by decide⟩

/-- Claim C4 witness: a clean response (text, one directive, marker at the
end) whose display is exactly the trimmed prefix, free of both tokens. -/
theorem ingest_display_message_spec_witness :
    ingest msgC4 get_default_pitch_data = .ok resC4
    ∧ (resC4.response = stripWS (prefixBeforeFirst UPDATE_DELIM msgC4)
       ∧ containsSub UPDATE_DELIM resC4.response = false
       ∧ containsSub READY_MARKER resC4.response = false) := by
  refine ⟨by rfl, ?_⟩
  exact (ingest_display_message_spec msgC4 get_default_pitch_data resC4 (by rfl)).2
    (by decide) (by decide)

/-- Claim C3: for every well-formed input record and every model response,
ingest leaves every inner cell of the caller record unchanged in the final
heap (updates touch only the deep copy), and whenever it returns, the
returned record is a new instance: all its cell addresses are fresh. -/
theorem ingest_preserves_input_record (h : Heap) (r : PitchRef) (msg : List Char)
    (hwf : ∀ p ∈ r, p.2 < h.length) :
    (∀ p ∈ r, heapGet (ingest_heap h r msg).1 p.2 = heapGet h p.2)
    ∧ (∀ (r2 : PitchRef) (d : List Char) (rdy : Bool),
        (ingest_heap h r msg).2 = .ok (r2, d, rdy) → ∀ q ∈ r2, h.length ≤ q.2) := by
  have hfresh := deepcopy_fresh r h
  have hpres : ∀ a, a < h.length → heapGet (deepcopyHeap h r).1 a = heapGet h a :=
    fun a ha => deepcopy_preserves r h a ha
  cases hc : containsSub UPDATE_DELIM msg with
  | false =>
    unfold ingest_heap
    simp only [hc, Bool.false_eq_true, if_false]
    constructor
    · intro p hp
      exact hpres p.2 (hwf p hp)
    · intro r2 d rdy hok q hq
      simp only [Except.ok.injEq, Prod.mk.injEq] at hok
      obtain ⟨h1, -, -⟩ := hok
      rw [← h1] at hq
      exact hfresh q hq
  | true =>
    unfold ingest_heap
    simp only [hc, if_true]
    cases hstep : processBlocksHeap (extractBlocks msg) (deepcopyHeap h r).1 (deepcopyHeap h r).2 with
    | mk h2 err =>
      have hframe : ∀ a, a < h.length → heapGet h2 a = heapGet (deepcopyHeap h r).1 a := by
        intro a ha
        have hx := processBlocksHeap_frame (extractBlocks msg) (deepcopyHeap h r).1
          (deepcopyHeap h r).2 h.length hfresh a ha
        rw [hstep] at hx
        exact hx
      cases err with
      | none =>
        simp only []
        constructor
        · intro p hp
          rw [hframe p.2 (hwf p hp)]
          exact hpres p.2 (hwf p hp)
        · intro r2 d rdy hok q hq
          simp only [Except.ok.injEq, Prod.mk.injEq] at hok
          obtain ⟨h1, -, -⟩ := hok
          rw [← h1] at hq
          exact hfresh q hq
      | some e =>
        simp only []
        constructor
        · intro p hp
          rw [hframe p.2 (hwf p hp)]
          exact hpres p.2 (hwf p hp)
        · intro r2 d rdy hok
          exact absurd hok (by simp)

/-- Claim C3 witness: a concrete run with one applied update; the three
caller cells read back unchanged and the returned record points only at the
three fresh copied cells. -/
theorem ingest_preserves_input_record_witness :
    (∀ p ∈ refC3, p.2 < heapC3.length)
    ∧ ingest_heap heapC3 refC3 msgC3 = (heapC3out, .ok (refC3out, pystr "Thanks!", false))
    ∧ (∀ p ∈ refC3, heapGet (ingest_heap heapC3 refC3 msgC3).1 p.2 = heapGet heapC3 p.2)
    ∧ (∀ q ∈ refC3out, heapC3.length ≤ q.2) := by
  have h := ingest_preserves_input_record heapC3 refC3 msgC3 (by decide)
  refine ⟨by decide, by rfl, h.1, ?_⟩
  exact h.2 refC3out (pystr "Thanks!") false (by rfl)

/-- Claim C8: get_default_pitch_data builds a record with exactly the three
known keys, every entry in unknown state with empty value, and two
successive calls yield records with disjoint cell addresses: mutating any
cell of either record leaves every cell of the other unchanged. -/
theorem get_default_pitch_data_independent (h : Heap) :
    refKeys (get_default_pitch_data_heap h).2 =
      [pystr "problem_definition", pystr "solution_description", pystr "icp"]
    ∧ refKeys (get_default_pitch_data_heap (get_default_pitch_data_heap h).1).2 =
      [pystr "problem_definition", pystr "solution_description", pystr "icp"]
    ∧ (∀ p ∈ (get_default_pitch_data_heap h).2,
        heapGet (get_default_pitch_data_heap (get_default_pitch_data_heap h).1).1 p.2 =
          some defaultEntry)
    ∧ (∀ q ∈ (get_default_pitch_data_heap (get_default_pitch_data_heap h).1).2,
        heapGet (get_default_pitch_data_heap (get_default_pitch_data_heap h).1).1 q.2 =
          some defaultEntry)
    ∧ (∀ p ∈ (get_default_pitch_data_heap h).2,
        ∀ q ∈ (get_default_pitch_data_heap (get_default_pitch_data_heap h).1).2, p.2 ≠ q.2)
    ∧ (∀ p ∈ (get_default_pitch_data_heap h).2, ∀ e : FieldEntry,
        ∀ q ∈ (get_default_pitch_data_heap (get_default_pitch_data_heap h).1).2,
        heapGet (heapSet (get_default_pitch_data_heap (get_default_pitch_data_heap h).1).1 p.2 e)
          q.2 =
        heapGet (get_default_pitch_data_heap (get_default_pitch_data_heap h).1).1 q.2)
    ∧ (∀ q ∈ (get_default_pitch_data_heap (get_default_pitch_data_heap h).1).2,
        ∀ e : FieldEntry, ∀ p ∈ (get_default_pitch_data_heap h).2,
        heapGet (heapSet (get_default_pitch_data_heap (get_default_pitch_data_heap h).1).1 q.2 e)
          p.2 =
        heapGet (get_default_pitch_data_heap (get_default_pitch_data_heap h).1).1 p.2) := by
  have hheap : (get_default_pitch_data_heap (get_default_pitch_data_heap h).1).1 =
      h ++ [defaultEntry, defaultEntry, defaultEntry, defaultEntry, defaultEntry, defaultEntry] := by
    show (h ++ [defaultEntry, defaultEntry, defaultEntry]) ++
      [defaultEntry, defaultEntry, defaultEntry] = _
    rw [List.append_assoc]
    rfl
  have hget : ∀ i, i < 6 → heapGet (get_default_pitch_data_heap (get_default_pitch_data_heap h).1).1
      (h.length + i) = some defaultEntry := by
    intro i hi
    rw [hheap, heapGet_append_at]
    interval_cases i <;> rfl
  have hmem1 : ∀ p ∈ (get_default_pitch_data_heap h).2,
      p.2 = h.length ∨ p.2 = h.length + 1 ∨ p.2 = h.length + 2 := by
    intro p hp
    simp only [get_default_pitch_data_heap, List.mem_cons, List.not_mem_nil, or_false] at hp
    rcases hp with rfl | rfl | rfl
    · exact Or.inl rfl
    · exact Or.inr (Or.inl rfl)
    · exact Or.inr (Or.inr rfl)
  have hmem2 : ∀ q ∈ (get_default_pitch_data_heap (get_default_pitch_data_heap h).1).2,
      q.2 = h.length + 3 ∨ q.2 = h.length + 4 ∨ q.2 = h.length + 5 := by
    intro q hq
    simp only [get_default_pitch_data_heap, List.mem_cons, List.not_mem_nil, or_false] at hq
    rcases hq with rfl | rfl | rfl
    · exact Or.inl (by simp)
    · exact Or.inr (Or.inl (by simp))
    · exact Or.inr (Or.inr (by simp))
  refine ⟨rfl, rfl, ?_, ?_, ?_, ?_, ?_⟩
  · intro p hp
    rcases hmem1 p hp with h1 | h1 | h1 <;> rw [h1]
    · exact hget 0 (by omega)
    · exact hget 1 (by omega)
    · exact hget 2 (by omega)
  · intro q hq
    rcases hmem2 q hq with h1 | h1 | h1 <;> rw [h1]
    · exact hget 3 (by omega)
    · exact hget 4 (by omega)
    · exact hget 5 (by omega)
  · intro p hp q hq
    rcases hmem1 p hp with h1 | h1 | h1 <;> rcases hmem2 q hq with h2 | h2 | h2 <;> omega
  · intro p hp e q hq
    have hne : p.2 ≠ q.2 := by
      rcases hmem1 p hp with h1 | h1 | h1 <;> rcases hmem2 q hq with h2 | h2 | h2 <;> omega
    exact heapGet_set_ne _ p.2 q.2 e hne
  · intro q hq e p hp
    have hne : q.2 ≠ p.2 := by
      rcases hmem1 p hp with h1 | h1 | h1 <;> rcases hmem2 q hq with h2 | h2 | h2 <;> omega
    exact heapGet_set_ne _ q.2 p.2 e hne

/-- Claim C8 witness: the property applied at the empty heap, with a
concrete mutation of the first record leaving the second unchanged. -/
theorem get_default_pitch_data_independent_witness :
    refKeys (get_default_pitch_data_heap []).2 =
      [pystr "problem_definition", pystr "solution_description", pystr "icp"]
    ∧ heapGet (heapSet (get_default_pitch_data_heap (get_default_pitch_data_heap []).1).1 0 entC7)
        3 =
      heapGet (get_default_pitch_data_heap (get_default_pitch_data_heap []).1).1 3 := by
  have h := get_default_pitch_data_independent []
  refine ⟨h.1, ?_⟩
  exact h.2.2.2.2.2.1 (pystr "problem_definition", 0) (by decide) entC7
    (pystr "problem_definition", 3) (by decide)

theorem competitiveAnalysisPrompt_contains (s r1 : List Char) :
    containsSub r1 (competitiveAnalysisPrompt s r1) = true := by
  unfold competitiveAnalysisPrompt
  exact containsSub_middle _ r1 _

theorem scoringSystemPrompt_contains (r2 : List Char) :
    containsSub r2 (scoringSystemPrompt r2) = true := by
  unfold scoringSystemPrompt
  exact containsSub_middle _ r2 _

/-- Claim C2: for every record whose pitch summary builds (all keys known)
and every deterministic client, if the final scoring-stage response is not
valid JSON then evaluate fails with an explicit JSON-decode error and
returns nothing; if it is valid JSON, evaluate returns the decoded object as
the evaluation (paired with the raw synthesis text). -/
theorem evaluate_scoring_json_contract (client : Request → List Char) (pd : PitchData)
    (s : List Char) (hs : pitchSummary pd = .ok s) :
    (json_loads (client (scoreReq (client (synthReq s (client (researchReq s)))) s)) = none →
      evaluate client pd = .error PyErr.jsonDecodeError)
    ∧ (∀ v : Json,
        json_loads (client (scoreReq (client (synthReq s (client (researchReq s)))) s)) = some v →
        evaluate client pd = .ok
          { evaluation := v
          , competitive_analysis_full := client (synthReq s (client (researchReq s))) }) := by
  constructor
  · intro hnone
    unfold evaluate evaluateCore
    simp only [hs, hnone]
  · intro v hv
    unfold evaluate evaluateCore
    simp only [hs, hv]

/-- Claim C2 witness: with a client that answers invalid JSON, evaluate on
the default record fails with the JSON-decode error. -/
theorem evaluate_scoring_json_contract_witness :
    pitchSummary get_default_pitch_data = .ok sDefault
    ∧ evaluate clientBad get_default_pitch_data = .error PyErr.jsonDecodeError := by
  have h := evaluate_scoring_json_contract clientBad get_default_pitch_data sDefault (by rfl)
  exact ⟨by rfl, h.1 (by rfl)⟩

/-- Claim C5: for every record whose pitch summary builds and every
deterministic client, evaluate issues exactly three requests in the fixed
research, synthesis, scoring order; the synthesis request user prompt embeds
the research-stage output, the scoring request system prompt embeds the
synthesis-stage output, and on a decodable final response the result pairs
the decoded scoring JSON with the raw synthesis text. -/
theorem evaluate_three_stage_chain (client : Request → List Char) (pd : PitchData)
    (s : List Char) (hs : pitchSummary pd = .ok s) :
    evaluateTrace client pd =
      [ researchReq s
      , synthReq s (client (researchReq s))
      , scoreReq (client (synthReq s (client (researchReq s)))) s ]
    ∧ containsSub (client (researchReq s))
        (((synthReq s (client (researchReq s))).messages.getD 1
          { role := [], content := [] }).content) = true
    ∧ containsSub (client (synthReq s (client (researchReq s))))
        (((scoreReq (client (synthReq s (client (researchReq s)))) s).messages.getD 0
          { role := [], content := [] }).content) = true
    ∧ (∀ v : Json,
        json_loads (client (scoreReq (client (synthReq s (client (researchReq s)))) s)) = some v →
        evaluate client pd = .ok
          { evaluation := v
          , competitive_analysis_full := client (synthReq s (client (researchReq s))) }) := by
  refine ⟨?_, ?_, ?_, ?_⟩
  · unfold evaluateTrace evaluateCore
    simp only [hs]
  · exact competitiveAnalysisPrompt_contains s (client (researchReq s))
  · exact scoringSystemPrompt_contains (client (synthReq s (client (researchReq s))))
  · intro v hv
    unfold evaluate evaluateCore
    simp only [hs, hv]

/-- Claim C5 witness: a concrete client; the trace is the three requests in
order and the result pairs the decoded scoring object with the synthesis
text. -/
theorem evaluate_three_stage_chain_witness :
    pitchSummary get_default_pitch_data = .ok sDefault
    ∧ evaluateTrace clientGood get_default_pitch_data =
        [ researchReq sDefault
        , synthReq sDefault (clientGood (researchReq sDefault))
        , scoreReq (clientGood (synthReq sDefault (clientGood (researchReq sDefault)))) sDefault ]
    ∧ evaluate clientGood get_default_pitch_data = .ok
        { evaluation := Json.obj [(pystr "ok", Json.bool true)]
        , competitive_analysis_full :=
            clientGood (synthReq sDefault (clientGood (researchReq sDefault))) } := by
  have h := evaluate_three_stage_chain clientGood get_default_pitch_data sDefault (by rfl)
  refine ⟨by rfl, h.1, ?_⟩
  exact h.2.2.2 (Json.obj [(pystr "ok", Json.bool true)]) (by rfl)
